import Mathlib

/-! # mouse-tool (src/main.c): shallow embedding and verification

This file embeds the core of the mouse-tool terminal mouse-capture program:

* a byte-level model of the SGR escape-sequence decoder
  (`parse_sgr`, the scanning loop of `read_sgr_event_timeout`),
* an event-level model of the timed event source (one call of
  `read_sgr_event_timeout` abstracted over the byte layer),
* the multiclick clusterer (`wait_for_first_press`, the follow-up loop of
  `handle_click_mode`),
* the main capture loop of `main` (single/limited, continuous, record modes),
* the JSON output formatters (`print_json_history`, `print_json_from_events`).

Modelling conventions: time is modelled by rationals (seconds on the
monotonic clock); C `long` is modelled as unbounded `Int` with the
overflow check of `strtol` made explicit; the C cast `(int)` is modelled
by explicit wrapping modulo `2^32`.  Input bytes are `Nat`.  The blocking
byte source is a `List Nat`; end of list models end-of-input (`read`
returning `<= 0`, the C code's `-1` path).  The event-level source is a
list of items each carrying the delay (seconds) between the previous
delivery and this item becoming readable; `select` with timeout `T`
delivers the head item iff its delay is `<= T`, otherwise it reports a
timeout after `T` seconds (mirroring the C code, which re-arms the full
timeout before every `select`). -/

namespace MouseTool

/-- `#define SGR_BUF 128` (main.c line 33). -/
def SGR_BUF : Nat := 128

/-- `#define MAX_EVENTS 65536` (main.c line 34). -/
def MAX_EVENTS : Nat := 65536

/-- `#define MULTICLICK_MAX_GAP 0.5` (main.c line 35). -/
def MULTICLICK_MAX_GAP : ℚ := 1/2

/-- `#define MULTICLICK_RADIUS 3` (main.c line 36). -/
def MULTICLICK_RADIUS : Int := 3

/-- `evtype_t` (main.c line 44). -/
inductive EvType
  | press
  | motion
  | release
  deriving DecidableEq, Repr, Inhabited

/-- The C cast `(int)v` applied to a `long`: wrap into `[-2^31, 2^31)`
(main.c line 154). -/
def intCast (v : Int) : Int := (v + 2 ^ 31) % 2 ^ 32 - 2 ^ 31

/-- `isspace` on a byte, as consulted by `strtol` when skipping leading
whitespace: space or horizontal tab / LF / VT / FF / CR. -/
def isSpaceByte (c : Nat) : Bool := c = 32 || (9 ≤ c && c ≤ 13)

/-- ASCII decimal digit. -/
def isDigitByte (c : Nat) : Bool := 48 ≤ c && c ≤ 57

/-- Model of `strtol(s, &end, 10)` combined with the caller's test
`errno || end == s` (main.c lines 149-153): skip leading whitespace, an
optional sign, then a run of decimal digits.  `none` means the caller's
test fails (no digits were consumed, or the value overflows `long`);
trailing non-digit bytes are ignored, exactly as in C. -/
def strtolModel (s : List Nat) : Option Int :=
  let s1 := s.dropWhile isSpaceByte
  let signed : Bool × List Nat :=
    match s1 with
    | [] => (false, [])
    | c :: r => if c = 43 then (false, r) else if c = 45 then (true, r) else (false, c :: r)
  let ds := signed.2.takeWhile isDigitByte
  if ds = [] then none
  else
    let m : Nat := ds.foldl (fun a d => a * 10 + (d - 48)) 0
    let v : Int := if signed.1 then -(m : Int) else (m : Int)
    if v < -(2 ^ 63) ∨ (2 ^ 63 - 1) < v then none else some v

/-- `strchr(p, c)` followed by `*s = '\0'; s++`: split a byte list at the
first occurrence of `b`, dropping it.  `none` when `b` does not occur. -/
def splitAtByte (b : Nat) : List Nat → Option (List Nat × List Nat)
  | [] => none
  | c :: r =>
    if c = b then some ([], r)
    else
      match splitAtByte b r with
      | none => none
      | some (p, q) => some (c :: p, q)

/-- `parse_sgr` (main.c lines 140-156).  `buf` is the accumulated scratch
buffer (starting with `<` and ending with the byte the accumulation loop
stopped on).  Returns `(cb, cx, cy, termch)` on success.  Mirrors the C
exactly: length/first-byte/overflow guards, `tmp` is `buf[1 .. len-2]`,
two splits at `;`, three `strtol` calls, `(int)` casts, and
`termch = buf[len-1]`. -/
def parse_sgr (buf : List Nat) : Option (Int × Int × Int × Nat) :=
  if buf.length < 4 ∨ buf.headD 0 ≠ 60 ∨ SGR_BUF ≤ buf.length then none
  else
    match splitAtByte 59 ((buf.drop 1).take (buf.length - 2)) with
    | none => none
    | some pr =>
      match splitAtByte 59 pr.2 with
      | none => none
      | some sr =>
        match strtolModel pr.1, strtolModel sr.1, strtolModel sr.2 with
        | some vcb, some vcx, some vcy =>
          some (intCast vcb, intCast vcx, intCast vcy, buf.getLastD 0)
        | _, _, _ => none

/-- Event classification on a parsed SGR record (main.c lines 195-196):
terminator `M` (byte 77) with `cb < 32` is a press, `M` with `cb >= 32`
is motion, any other terminator (in particular `m`, byte 109) is a
release. -/
def classify (cb : Int) (tch : Nat) : EvType :=
  if tch = 77 then (if cb < 32 then .press else .motion) else .release

/-- Result of one byte-level call of `read_sgr_event_timeout`
(main.c lines 158-163): `event` is return code 1, `eof` is -1 (EOF /
error / signal), `enter` is 2.  Return code 0 (timeout) cannot arise at
the byte level modelled here (it is produced by `select`, modelled in
the event-level source below). -/
inductive ReadRes
  | event (button x y : Int) (kind : EvType)
  | eof
  | enter
  deriving DecidableEq, Repr

/-- The decoder's control position inside the scanning loop of
`read_sgr_event_timeout` (main.c lines 170-198):
`top` = top of the `for (;;)` loop (about to read a fresh byte);
`esc` = just consumed ESC, expecting `[` (line 183);
`br` = consumed `ESC [`, expecting `<` (line 184);
`accum buf` = inside the accumulation loop (lines 185-190) with scratch
buffer contents `buf`. -/
inductive DState
  | top
  | esc
  | br
  | accum (buf : List Nat)
  deriving DecidableEq, Repr

/-- End of the accumulation loop (main.c lines 191-197): parse the
scratch buffer; on failure `continue` (back to the top of the scanning
loop), on success produce the classified event. -/
def sgrFinish (buf : List Nat) : DState ⊕ ReadRes :=
  match parse_sgr buf with
  | none => .inl .top
  | some r => .inr (.event r.1 r.2.1 r.2.2.1 (classify r.1 r.2.2.2))

/-- One byte of the scanning loop of `read_sgr_event_timeout`
(main.c lines 179-197).  `inl` continues the loop in a new state, `inr`
returns from the call.
At `top`: CR/LF returns Enter (line 181); a non-ESC byte is dropped
(line 182); ESC advances.  At `esc`/`br`: a byte other than `[` / `<`
sends the loop back to the top, the byte consumed (lines 183-184) - note
this applies to CR/LF too.  At `accum buf`: the byte is appended; a
terminator `M`/`m` ends the accumulation (line 189), otherwise
accumulation continues while `len + 1 < SGR_BUF` holds for the new
length (line 186), and on overflow the buffer is parsed as-is. -/
def stepByte : DState → Nat → DState ⊕ ReadRes
  | .top, c =>
    if c = 13 ∨ c = 10 then .inr .enter
    else if c = 27 then .inl .esc
    else .inl .top
  | .esc, c => if c = 91 then .inl .br else .inl .top
  | .br, c => if c = 60 then .inl (.accum [60]) else .inl .top
  | .accum buf, c =>
    let buf2 := buf ++ [c]
    if c = 77 ∨ c = 109 then sgrFinish buf2
    else if buf2.length + 1 < SGR_BUF then .inl (.accum buf2)
    else sgrFinish buf2

/-- Run the scanning loop of `read_sgr_event_timeout` from decoder state
`st` over the byte stream.  Returns the call's result together with the
unconsumed bytes; an exhausted stream models `read` returning `<= 0`
(the C code returns -1, here `.eof`). -/
def readEvent (st : DState) : List Nat → ReadRes × List Nat
  | [] => (.eof, [])
  | c :: rest =>
    match stepByte st c with
    | .inl st2 => readEvent st2 rest
    | .inr res => (res, rest)

/-- Decimal digit bytes of `n`, little-endian; fuel-driven so that it is
structurally recursive (`fuel >= n` suffices). -/
def encNatAux : Nat → Nat → List Nat
  | 0, _ => []
  | _ + 1, 0 => []
  | fuel + 1, n + 1 => ((n + 1) % 10 + 48) :: encNatAux fuel ((n + 1) / 10)

/-- The ASCII decimal representation of `n`, most significant digit
first - the byte sequence a terminal emits for a coordinate field. -/
def encNat (n : Nat) : List Nat :=
  if n = 0 then [48] else (encNatAux n n).reverse

/-- Value of a little-endian list of digit bytes (proof helper). -/
def valLE : List Nat → Nat
  | [] => 0
  | d :: l => (d - 48) + 10 * valLE l

/-- The raw bytes of a complete SGR mouse report
`ESC [ < Cb ; Cx ; Cy term` as a terminal emits them. -/
def sgrBytes (cb cx cy term : Nat) : List Nat :=
  [27, 91, 60] ++ encNat cb ++ [59] ++ encNat cx ++ [59] ++ encNat cy ++ [term]

/-- `event_t` (main.c line 45); the timestamp `t` is the monotonic clock
in seconds. -/
structure event_t where
  x : Int
  y : Int
  button : Int
  type : EvType
  t : ℚ
  deriving DecidableEq, Repr, Inhabited

/-- What the byte source can yield at the event level: a decoded raw
event (before timestamping) or the Enter key. -/
inductive SrcItem
  | ev (button x y : Int) (k : EvType)
  | enter
  deriving DecidableEq, Repr

/-- An event-level source item: `delay` seconds after the previous
delivery (or after the start of the current wait) the item becomes
readable. -/
structure TimedItem where
  delay : ℚ
  item : SrcItem
  deriving DecidableEq, Repr

/-- Result of one event-level call of `read_sgr_event_timeout`
(return codes 1 / 0 / -1 / 2 of main.c lines 158-163). -/
inductive RdRes
  | ev (e : event_t)
  | timeout
  | eof
  | enter
  deriving DecidableEq, Repr

/-- Deliver a source item at monotonic time `now`: an event is stamped
with `clock_gettime(CLOCK_MONOTONIC)` (main.c line 193). -/
def deliver (ti : TimedItem) (now : ℚ) : RdRes :=
  match ti.item with
  | .ev b x y k => .ev ⟨x, y, b, k, now⟩
  | .enter => .enter

/-- One event-level call of `read_sgr_event_timeout` (main.c lines
164-199).  `timeout = none` models `timeout_sec < 0` (block: `select`
with a NULL timeout).  With `some T`, the head item is delivered iff it
becomes readable within `T` seconds, otherwise the call returns 0
(timeout) after `T` seconds and the item's remaining delay shrinks by
`T`.  An exhausted source models EOF (-1).  The C parameter
`want_motion` is unused inside the function and therefore not
modelled. -/
def readTimed : Option ℚ → ℚ → List TimedItem → RdRes × ℚ × List TimedItem
  | _, clock, [] => (.eof, clock, [])
  | none, clock, ti :: rest => (deliver ti (clock + ti.delay), clock + ti.delay, rest)
  | some T, clock, ti :: rest =>
    if ti.delay ≤ T then (deliver ti (clock + ti.delay), clock + ti.delay, rest)
    else (.timeout, clock + T, ⟨ti.delay - T, ti.item⟩ :: rest)

/-- `wait_for_first_press` (main.c lines 339-348): block (timeout -1)
until a Press event arrives; Enter or EOF is a failure; non-Press
events are skipped.  Returns the press, the clock after it, and the
remaining source.  (The timeout result of `readTimed` cannot occur with
a blocking read; the loop simply continues in that case, as in C.) -/
def wait_for_first_press (clock : ℚ) : List TimedItem → Option (event_t × ℚ × List TimedItem)
  | [] => none
  | ti :: rest =>
    match readTimed none clock (ti :: rest) with
    | (.ev e, c2, _) =>
      if e.type = .press then some (e, c2, rest)
      else wait_for_first_press c2 rest
    | (.enter, _, _) => none
    | (.eof, _, _) => none
    | (.timeout, c2, _) => wait_for_first_press c2 rest

/-- The follow-up accumulation loop of `handle_click_mode` (main.c lines
382-404): while `count < N`, wait up to `MULTICLICK_MAX_GAP` for the
next result; timeout (r = 0), EOF (r = -1) and Enter (r = 2) are
failures; a non-Press event is skipped; a Press farther than
`MULTICLICK_RADIUS` (squared distance to the first press) is a failure;
a Press within the radius increments `count` and becomes the new `last`.
On `count = N` the loop exits and `last` is the result. -/
def click_followups (firstx firsty : Int) (N count : Nat) (last : event_t) (clock : ℚ) :
    List TimedItem → Option event_t
  | [] => if N ≤ count then some last else none
  | ti :: rest =>
    if N ≤ count then some last
    else
      match readTimed (some MULTICLICK_MAX_GAP) clock (ti :: rest) with
      | (.timeout, _, _) => none
      | (.eof, _, _) => none
      | (.enter, _, _) => none
      | (.ev e, c2, _) =>
        if e.type ≠ .press then click_followups firstx firsty N count last c2 rest
        else
          let dx := firstx - e.x
          let dy := firsty - e.y
          if dx * dx + dy * dy ≤ MULTICLICK_RADIUS * MULTICLICK_RADIUS then
            click_followups firstx firsty N (count + 1) e c2 rest
          else none

/-- `handle_click_mode` (main.c lines 372-429) reduced to the reported
result: the first press is the anchor; with `N > 1` the follow-up loop
runs starting from `count = 1` and `last = first`; the reported event is
`last` (`none` models the failure exit code 1 with no output). -/
def handle_click_mode (N : Nat) (clock : ℚ) (src : List TimedItem) : Option event_t :=
  match wait_for_first_press clock src with
  | none => none
  | some fr =>
    if 1 < N then click_followups fr.1.x fr.1.y N 1 fr.1 fr.2.1 fr.2.2
    else some fr.1

/-- A press as the terminal produces it in a multiclick scenario
(statement helper for the clusterer theorems). -/
structure PressSpec where
  delay : ℚ
  button : Int
  px : Int
  py : Int
  deriving DecidableEq, Repr, Inhabited

/-- The timed source item of a `PressSpec`. -/
def PressSpec.toItem (p : PressSpec) : TimedItem :=
  ⟨p.delay, .ev p.button p.px p.py .press⟩

/-- The `last` candidate after a run of accepted presses: each accepted
press becomes the new `last`, stamped at its arrival time (statement
helper). -/
def clusterResult (last : event_t) (clock : ℚ) : List PressSpec → event_t
  | [] => last
  | p :: ps => clusterResult ⟨p.px, p.py, p.button, .press, clock + p.delay⟩ (clock + p.delay) ps

/-- output modes (main.c line 53). -/
inductive OutMode
  | csv
  | json
  | pretty
  | jsonl
  deriving DecidableEq, Repr

/-- The configuration of one run of `main`'s capture loop (the locals of
`main`, main.c lines 464-472, after option parsing): `max_events` is the
record-buffer capacity computed at lines 569-572. -/
structure MainCfg where
  infinite : Bool
  count_limit : Nat
  record_mode : Bool
  record_seconds : ℚ
  max_events : Nat
  out_mode : OutMode
  do_mark : Bool
  deriving DecidableEq, Repr

/-- The mutable state of `main`'s capture loop (main.c lines 567-583):
`events` is the record buffer, `outs` the JSON history buffer (event
with its `dt`), `jsonl_lines` the stream of `print_json_line` calls,
`csv_lines` the stream of CSV lines, `marks` the stream of `draw_mark`
calls, `outputs` the press counter, `last_emit` the `last_emit_time`
(with the C code's all-zero "unset" sentinel).  `consumed` is ghost
instrumentation: every event returned by a read, in order. -/
structure MainSt where
  events : List event_t
  outs : List (event_t × ℚ)
  jsonl_lines : List (event_t × ℚ)
  csv_lines : List (Int × Int × Int)
  marks : List (Int × Int)
  outputs : Nat
  last_emit : ℚ
  consumed : List event_t
  deriving DecidableEq, Repr

/-- The zero-initialised loop state. -/
def init_state : MainSt := ⟨[], [], [], [], [], 0, 0, []⟩

/-- `dt` of the event about to be emitted (main.c lines 624-628): time
since `last_emit_time`, or 0 while the sentinel is still zero.  The
event's own stamp plays `clock_gettime(&cur)`. -/
def emit_dt (st : MainSt) (e : event_t) : ℚ :=
  if st.last_emit ≠ 0 then e.t - st.last_emit else 0

/-- Per-event processing of the non-record branch of the main loop
(main.c lines 621-662): mark only presses (line 621); compute `dt` and
update `last_emit_time` (lines 624-629); JSONL streams every event
(line 633), JSON/pretty buffer every event (lines 636-647), CSV emits
presses only (lines 648-656); `outputs` counts presses only
(line 659). -/
def main_step (cfg : MainCfg) (st : MainSt) (e : event_t) : MainSt :=
  { st with
    marks := st.marks ++ (if cfg.do_mark = true ∧ e.type = .press then [(e.x, e.y)] else []),
    jsonl_lines := st.jsonl_lines ++ (if cfg.out_mode = .jsonl then [(e, emit_dt st e)] else []),
    outs := st.outs ++
      (if cfg.out_mode = .json ∨ cfg.out_mode = .pretty then [(e, emit_dt st e)] else []),
    csv_lines := st.csv_lines ++
      (if cfg.out_mode = .csv ∧ e.type = .press then [(e.x, e.y, e.button)] else []),
    outputs := st.outputs + (if e.type = .press then 1 else 0),
    last_emit := e.t }

/-- Why the main loop ended: `terminated` is `rv = -1`, `enterKey` is
`rv = 2` (line 605), `timeExpired` is `remaining <= 0` in record mode
(line 594), `limitReached` is the press-count break (lines 666-670). -/
inductive StopReason
  | terminated
  | enterKey
  | timeExpired
  | limitReached
  deriving DecidableEq, Repr

/-- The main capture loop (main.c lines 586-671), with `clock` the
elapsed monotonic time since `rec_start` (taken as 0).  In record mode
the timeout is the shrinking `record_seconds - elapsed`, checked `<= 0`
before each read (lines 590-596), and a received event is appended to
`events` only while `ev_count < max_events` (line 611); the mark / dt /
format / count code below line 615 is skipped by the `continue` at
line 613.  A timeout result in record mode stops the loop: the next
iteration recomputes `remaining = 0 <= 0` and breaks (with exact
arithmetic this is immediate).  In non-record mode the read blocks, so
the timeout result is unreachable. -/
def main_loop (cfg : MainCfg) (st : MainSt) (clock : ℚ) :
    List TimedItem → MainSt × StopReason × List TimedItem
  | [] =>
    if cfg.record_mode = true ∧ cfg.record_seconds - clock ≤ 0 then (st, .timeExpired, [])
    else (st, .terminated, [])
  | ti :: rest =>
    if cfg.record_mode = true ∧ cfg.record_seconds - clock ≤ 0 then (st, .timeExpired, ti :: rest)
    else
      match readTimed (if cfg.record_mode = true then some (cfg.record_seconds - clock) else none)
          clock (ti :: rest) with
      | (.eof, _, rem) => (st, .terminated, rem)
      | (.timeout, _, rem) => (st, .timeExpired, rem)
      | (.enter, _, rem) => (st, .enterKey, rem)
      | (.ev e, c2, _) =>
        let st1 : MainSt := { st with consumed := st.consumed ++ [e] }
        if cfg.record_mode = true then
          main_loop cfg
            (if st1.events.length < cfg.max_events then
              { st1 with events := st1.events ++ [e] }
             else st1) c2 rest
        else
          let st2 := main_step cfg st1 e
          if cfg.infinite = false ∧ cfg.count_limit = 0 ∧ 1 ≤ st2.outputs then
            (st2, .limitReached, rest)
          else if cfg.infinite = false ∧ 0 < cfg.count_limit ∧ cfg.count_limit ≤ st2.outputs then
            (st2, .limitReached, rest)
          else main_loop cfg st2 c2 rest

/-- Number of press events in a list (statement helper). -/
def countPress (l : List event_t) : Nat := (l.filter (fun e => e.type = .press)).length

/-- The record-buffer capacity computed by `main` (main.c lines
569-572): `(size_t)(record_seconds * 1000.0) + 1024`, capped at
`MAX_EVENTS`; the C cast truncates the positive double, i.e. floor. -/
def record_capacity (record_seconds : ℚ) : Nat :=
  let est := (⌊record_seconds * 1000⌋).toNat + 1024
  if est > MAX_EVENTS then MAX_EVENTS else est

/-- `type_str` (main.c line 268). -/
def type_str (t : EvType) : String :=
  if t = .press then "press" else if t = .release then "release" else "motion"

/-- One element of the `events` array of the batched JSON output. -/
structure JsonEntry where
  x : Int
  y : Int
  button : Int
  type : String
  dt : ℚ
  deriving DecidableEq, Repr

/-- The batched JSON record `mode/started_at/duration/outputs/events`
common to the compact and the pretty rendering - in the C code the
`pretty` flag selects only the whitespace of the two `fprintf` branches,
both of which print the same `press_count` and the same field values
(main.c lines 277-293 and 304-323). -/
structure JsonDoc where
  mode : String
  started_at : String
  duration : ℚ
  outputs : Nat
  events : List JsonEntry
  deriving DecidableEq, Repr

/-- `print_json_history` (main.c lines 272-295): `outputs` is the number
of press events among the buffered `outs` (lines 274-275), `events`
lists every buffered event with its stored `dt`. -/
def print_json_history (outs : List (event_t × ℚ)) (mode started_at : String)
    (duration : ℚ) : JsonDoc :=
  { mode := mode, started_at := started_at, duration := duration,
    outputs := outs.foldl (fun k o => if o.1.type = .press then k + 1 else k) 0,
    events := outs.map (fun o => ⟨o.1.x, o.1.y, o.1.button, type_str o.1.type, o.2⟩) }

/-- The `events` entries of `print_json_from_events` (main.c lines
306-310): `dt` is the timestamp difference to the previous event, 0 for
the first (`prev` carries the previous timestamp). -/
def events_entries (prev : Option ℚ) : List event_t → List JsonEntry
  | [] => []
  | e :: rest =>
    ⟨e.x, e.y, e.button, type_str e.type,
      match prev with
      | none => 0
      | some p => e.t - p⟩ :: events_entries (some e.t) rest

/-- `print_json_from_events` (main.c lines 298-325): same record shape,
`outputs` counts press events of the raw event list (lines 300-301),
`dt` is recomputed from the stored timestamps. -/
def print_json_from_events (events : List event_t) (mode started_at : String)
    (duration : ℚ) : JsonDoc :=
  { mode := mode, started_at := started_at, duration := duration,
    outputs := events.foldl (fun k e => if e.type = .press then k + 1 else k) 0,
    events := events_entries none events }

/-- The record-mode epilogue of `main` for the JSON output modes
(main.c lines 675-692): the session duration is the timestamp difference
between the last and the first captured event, 0 with fewer than two
events (lines 679-682), and the captured events are dumped through
`print_json_from_events` with mode string `"record"`. -/
def record_session (cfg : MainCfg) (started_at : String) (src : List TimedItem) : JsonDoc :=
  let events := (main_loop cfg init_state 0 src).1.events
  let duration : ℚ :=
    if 1 < events.length then (events.getLastD default).t - (events.headD default).t else 0
  print_json_from_events events "record" started_at duration

/-! ## Proof layer: decimal encoding and strtol -/

/-- Every byte produced by `encNatAux` is an ASCII digit. -/
theorem encNatAux_mem (fuel : Nat) : ∀ (n d : Nat), d ∈ encNatAux fuel n → 48 ≤ d ∧ d ≤ 57 := by
  induction fuel with
  | zero => intro n d h; simp [encNatAux] at h
  | succ fuel ih =>
    intro n d h
    cases n with
    | zero => simp [encNatAux] at h
    | succ m =>
      rw [encNatAux] at h
      rcases List.mem_cons.mp h with h | h
      · subst h; omega
      · exact ih _ _ h

/-- `encNatAux` decodes back to its argument. -/
theorem valLE_encNatAux (fuel : Nat) : ∀ n : Nat, n ≤ fuel → valLE (encNatAux fuel n) = n := by
  induction fuel with
  | zero => intro n h; interval_cases n; simp [encNatAux, valLE]
  | succ fuel ih =>
    intro n h
    cases n with
    | zero => simp [encNatAux, valLE]
    | succ m =>
      have hdiv : (m + 1) / 10 ≤ fuel := by omega
      rw [encNatAux, valLE, ih _ hdiv]
      omega

/-- Folding the big-endian digit reading over a reversed little-endian
digit list. -/
theorem foldl_rev_valLE (L : List Nat) : ∀ a : Nat,
    List.foldl (fun x d => x * 10 + (d - 48)) a L.reverse = a * 10 ^ L.length + valLE L := by
  induction L with
  | nil => intro a; simp [valLE]
  | cons d L2 ih =>
    intro a
    rw [List.reverse_cons, List.foldl_append, ih, valLE]
    simp [List.length_cons, pow_succ]
    ring

/-- Every byte of `encNat n` is an ASCII digit. -/
theorem encNat_digits (n d : Nat) (h : d ∈ encNat n) : 48 ≤ d ∧ d ≤ 57 := by
  unfold encNat at h
  split at h
  · simp at h; omega
  · exact encNatAux_mem n n d (List.mem_reverse.mp h)

/-- `encNat n` is never empty. -/
theorem encNat_ne_nil (n : Nat) : encNat n ≠ [] := by
  unfold encNat
  split
  · simp
  · rename_i h
    cases n with
    | zero => exact absurd rfl h
    | succ m => rw [encNatAux]; simp

/-- Reading `encNat n` back as a big-endian decimal gives `n`. -/
theorem encNat_foldl (n : Nat) :
    (encNat n).foldl (fun x d => x * 10 + (d - 48)) 0 = n := by
  unfold encNat
  split
  · rename_i h; subst h; simp
  · rw [foldl_rev_valLE, valLE_encNatAux n n le_rfl]; simp

/-- `takeWhile` keeps a list all of whose elements satisfy the predicate. -/
theorem takeWhile_all {p : Nat → Bool} : ∀ l : List Nat, (∀ d ∈ l, p d = true) →
    l.takeWhile p = l := by
  intro l h
  induction l with
  | nil => rfl
  | cons d r ih =>
    rw [List.takeWhile_cons, h d (by simp), ih fun x hx => h x (by simp [hx])]
    simp

/-- `strtolModel` reads the decimal encoding of `n` back as `n`
(no whitespace, no sign, all digits consumed, no overflow). -/
theorem strtolModel_encNat (n : Nat) (hn : n < 2 ^ 63) :
    strtolModel (encNat n) = some (n : Int) := by
  obtain ⟨d, t, hdt⟩ : ∃ d t, encNat n = d :: t := by
    cases h : encNat n with
    | nil => exact absurd h (encNat_ne_nil n)
    | cons d t => exact ⟨d, t, rfl⟩
  have hd : 48 ≤ d ∧ d ≤ 57 := encNat_digits n d (by rw [hdt]; simp)
  have hall : ∀ x ∈ encNat n, isDigitByte x = true := by
    intro x hx
    have := encNat_digits n x hx
    unfold isDigitByte
    simp
    omega
  unfold strtolModel
  rw [hdt, List.dropWhile_cons]
  have hspace : isSpaceByte d = false := by unfold isSpaceByte; simp; omega
  rw [hspace]
  simp only [Bool.false_eq_true, if_false]
  rw [if_neg (by omega : ¬ d = 43), if_neg (by omega : ¬ d = 45)]
  simp only
  rw [show d :: t = encNat n from hdt.symm, takeWhile_all (encNat n) hall]
  rw [if_neg (encNat_ne_nil n)]
  simp only [Bool.false_eq_true, if_false, encNat_foldl]
  rw [if_neg]
  omega

/-- `splitAtByte` splits at the first occurrence. -/
theorem splitAtByte_append (b : Nat) (ys : List Nat) : ∀ xs : List Nat, b ∉ xs →
    splitAtByte b (xs ++ b :: ys) = some (xs, ys) := by
  intro xs h
  induction xs with
  | nil => simp [splitAtByte]
  | cons c r ih =>
    have hc : ¬ c = b := fun e => h (by simp [e])
    rw [List.cons_append, splitAtByte, if_neg hc, ih (fun hb => h (by simp [hb]))]

/-- The `(int)` cast is the identity below `2^31`. -/
theorem intCast_ofNat (n : Nat) (h : n < 2 ^ 31) : intCast (n : Int) = n := by
  unfold intCast
  rw [Int.emod_eq_of_lt (by positivity) (by exact_mod_cast (by omega : n + 2 ^ 31 < 2 ^ 32))]
  ring

/-! ## Proof layer: the SGR decoder on well-formed and malformed sequences -/

/-- One scanning step that stays inside the loop. -/
theorem readEvent_cons_inl {st : DState} {c : Nat} {st2 : DState}
    (h : stepByte st c = .inl st2) (rest : List Nat) :
    readEvent st (c :: rest) = readEvent st2 rest := by
  simp only [readEvent, h]

/-- One scanning step that returns from the call. -/
theorem readEvent_cons_inr {st : DState} {c : Nat} {res : ReadRes}
    (h : stepByte st c = .inr res) (rest : List Nat) :
    readEvent st (c :: rest) = (res, rest) := by
  simp only [readEvent, h]

/-- `parse_sgr` succeeds on a well-formed scratch buffer
`< Cb ; Cx ; Cy term` and returns the three encoded values and the
terminator. -/
theorem parse_sgr_valid (cb cx cy term : Nat)
    (hcb : cb < 2 ^ 31) (hcx : cx < 2 ^ 31) (hcy : cy < 2 ^ 31)
    (hlen : (encNat cb ++ 59 :: (encNat cx ++ 59 :: encNat cy)).length ≤ 125) :
    parse_sgr ((60 :: (encNat cb ++ 59 :: (encNat cx ++ 59 :: encNat cy))) ++ [term])
      = some ((cb : Int), (cx : Int), (cy : Int), term) := by
  have hBl : 1 ≤ (encNat cb).length := List.length_pos.mpr (encNat_ne_nil cb)
  have hXl : 1 ≤ (encNat cx).length := List.length_pos.mpr (encNat_ne_nil cx)
  have hYl : 1 ≤ (encNat cy).length := List.length_pos.mpr (encNat_ne_nil cy)
  have hno59B : 59 ∉ encNat cb := fun h => by have := encNat_digits cb 59 h; omega
  have hno59X : 59 ∉ encNat cx := fun h => by have := encNat_digits cx 59 h; omega
  have hlc : ((60 :: (encNat cb ++ 59 :: (encNat cx ++ 59 :: encNat cy))) ++ [term]).length
      = (encNat cb ++ 59 :: (encNat cx ++ 59 :: encNat cy)).length + 2 := by
    simp only [List.length_append, List.length_cons, List.length_nil]
  have hguard : ¬ (((60 :: (encNat cb ++ 59 :: (encNat cx ++ 59 :: encNat cy))) ++ [term]).length < 4
      ∨ ((60 :: (encNat cb ++ 59 :: (encNat cx ++ 59 :: encNat cy))) ++ [term]).headD 0 ≠ 60
      ∨ SGR_BUF ≤ ((60 :: (encNat cb ++ 59 :: (encNat cx ++ 59 :: encNat cy))) ++ [term]).length) := by
    push_neg
    refine ⟨?_, ?_, ?_⟩
    · rw [hlc]
      simp only [List.length_append, List.length_cons, List.length_nil] at hlen ⊢; omega
    · simp
    · rw [hlc]; unfold SGR_BUF
      simp only [List.length_append, List.length_cons, List.length_nil] at hlen ⊢; omega
  rw [parse_sgr, if_neg hguard]
  have hdrop : (((60 :: (encNat cb ++ 59 :: (encNat cx ++ 59 :: encNat cy))) ++ [term]).drop 1)
      = (encNat cb ++ 59 :: (encNat cx ++ 59 :: encNat cy)) ++ [term] := by
    simp
  have htlen : ((60 :: (encNat cb ++ 59 :: (encNat cx ++ 59 :: encNat cy))) ++ [term]).length - 2
      = (encNat cb ++ 59 :: (encNat cx ++ 59 :: encNat cy)).length := by
    rw [hlc]; omega
  rw [hdrop, htlen, List.take_left]
  have hsplit1 : splitAtByte 59 (encNat cb ++ 59 :: (encNat cx ++ 59 :: encNat cy))
      = some (encNat cb, encNat cx ++ 59 :: encNat cy) :=
    splitAtByte_append 59 (encNat cx ++ 59 :: encNat cy) (encNat cb) hno59B
  have hsplit2 : splitAtByte 59 (encNat cx ++ 59 :: encNat cy)
      = some (encNat cx, encNat cy) :=
    splitAtByte_append 59 (encNat cy) (encNat cx) hno59X
  rw [hsplit1]
  simp only
  rw [hsplit2]
  simp only
  rw [strtolModel_encNat cb (by omega), strtolModel_encNat cx (by omega),
    strtolModel_encNat cy (by omega)]
  simp only
  rw [intCast_ofNat cb hcb, intCast_ofNat cx hcx, intCast_ofNat cy hcy]
  have hlast : ((60 :: (encNat cb ++ 59 :: (encNat cx ++ 59 :: encNat cy))) ++ [term]).getLastD 0
      = term := List.getLastD_concat _ _ _
  rw [hlast]

/-- Accumulation-loop lemma: from state `accum buf`, a body free of
terminator bytes followed by a terminator byte is fully absorbed (the
buffer bound is never hit), the combined buffer is parsed, and the call
either returns the classified event or resumes scanning after the
terminator. -/
theorem readEvent_accum (body : List Nat) : ∀ (buf : List Nat) (term : Nat) (rest : List Nat),
    (∀ b ∈ body, b ≠ 77 ∧ b ≠ 109) → (term = 77 ∨ term = 109) →
    buf.length + body.length ≤ 126 →
    readEvent (.accum buf) (body ++ term :: rest) =
      (match parse_sgr (buf ++ (body ++ [term])) with
       | none => readEvent .top rest
       | some r => ((.event r.1 r.2.1 r.2.2.1 (classify r.1 r.2.2.2)), rest)) := by
  induction body with
  | nil =>
    intro buf term rest _ ht hlen
    rw [List.nil_append]
    cases hp : parse_sgr (buf ++ [term]) with
    | none =>
      rw [readEvent_cons_inl (show stepByte (.accum buf) term = .inl .top by
        simp only [stepByte]
        rw [if_pos ht]
        simp only [sgrFinish, hp]) rest]
      simp [hp]
    | some r =>
      rw [readEvent_cons_inr (show stepByte (.accum buf) term
            = .inr (.event r.1 r.2.1 r.2.2.1 (classify r.1 r.2.2.2)) by
        simp only [stepByte]
        rw [if_pos ht]
        simp only [sgrFinish, hp]) rest]
      simp [hp]
  | cons d body ih =>
    intro buf term rest hb ht hlen
    have hd := hb d (by simp)
    have hlen2 : (buf ++ [d]).length + body.length ≤ 126 := by
      simp only [List.length_append, List.length_cons, List.length_nil] at hlen ⊢; omega
    have hstep : stepByte (.accum buf) d = .inl (.accum (buf ++ [d])) := by
      simp only [stepByte]
      rw [if_neg (by omega : ¬ (d = 77 ∨ d = 109)), if_pos (by
        simp only [List.length_append, List.length_cons, List.length_nil] at hlen ⊢
        unfold SGR_BUF; omega)]
    rw [List.cons_append, readEvent_cons_inl hstep,
      ih (buf ++ [d]) term rest (fun b hbm => hb b (by simp [hbm])) ht hlen2]
    have harg : (buf ++ [d]) ++ (body ++ [term]) = buf ++ ((d :: body) ++ [term]) := by
      simp
    rw [harg]

/-- The scanning loop decodes a complete well-formed SGR report emitted
at the top-level state: the three fields come back as sent, the
terminator is classified, and scanning resumes right after the
sequence. -/
theorem readEvent_sgrBytes (cb cx cy term : Nat) (rest : List Nat)
    (ht : term = 77 ∨ term = 109)
    (hcb : cb < 2 ^ 31) (hcx : cx < 2 ^ 31) (hcy : cy < 2 ^ 31)
    (hlen : (encNat cb).length + (encNat cx).length + (encNat cy).length + 2 ≤ 125) :
    readEvent .top (sgrBytes cb cx cy term ++ rest)
      = (.event (cb : Int) (cx : Int) (cy : Int) (classify (cb : Int) term), rest) := by
  have hbody : ∀ b ∈ (encNat cb ++ 59 :: (encNat cx ++ 59 :: encNat cy)), b ≠ 77 ∧ b ≠ 109 := by
    intro b hbmem
    simp only [List.mem_append, List.mem_cons] at hbmem
    rcases hbmem with h | h | h | h
    · have := encNat_digits cb b h; omega
    · omega
    · have := encNat_digits cx b h; omega
    · rcases h with h | h
      · omega
      · have := encNat_digits cy b h; omega
  have hstream : sgrBytes cb cx cy term ++ rest
      = 27 :: 91 :: 60 :: ((encNat cb ++ 59 :: (encNat cx ++ 59 :: encNat cy)) ++ term :: rest) := by
    unfold sgrBytes
    simp
  rw [hstream]
  rw [readEvent_cons_inl (show stepByte .top 27 = .inl .esc by decide) _]
  rw [readEvent_cons_inl (show stepByte .esc 91 = .inl .br by decide) _]
  rw [readEvent_cons_inl (show stepByte .br 60 = .inl (.accum [60]) by decide) _]
  rw [readEvent_accum _ [60] term rest hbody ht (by
    simp only [List.length_append, List.length_cons, List.length_nil]
    omega)]
  have harg : ([60] : List Nat) ++ ((encNat cb ++ 59 :: (encNat cx ++ 59 :: encNat cy)) ++ [term])
      = (60 :: (encNat cb ++ 59 :: (encNat cx ++ 59 :: encNat cy))) ++ [term] := by
    simp
  rw [harg, parse_sgr_valid cb cx cy term hcb hcx hcy (by
    simp only [List.length_append, List.length_cons, List.length_nil]
    omega)]

/-! ## Claims C1, C2, C3: the SGR decoder -/

/-- C1: for every valid SGR sequence `ESC [ < Cb ; Cx ; Cy` followed by
terminator `M` (byte 77) or `m` (byte 109), the decoder produces an
event with `button = Cb`, `x = Cx`, `y = Cy`, whose kind is Press iff
the terminator is `M` and `Cb < 32`, Motion iff the terminator is `M`
and `Cb >= 32`, and Release iff the terminator is `m`; scanning resumes
exactly after the sequence.  (The bounds keep the fields inside the C
`int` range and the sequence inside the 128-byte scratch buffer, as the
decoder requires.) -/
theorem mouse_C1 (cb cx cy term : Nat) (rest : List Nat)
    (ht : term = 77 ∨ term = 109)
    (hcb : cb < 2 ^ 31) (hcx : cx < 2 ^ 31) (hcy : cy < 2 ^ 31)
    (hlen : (encNat cb).length + (encNat cx).length + (encNat cy).length + 2 ≤ 125) :
    ∃ k : EvType,
      readEvent .top (sgrBytes cb cx cy term ++ rest)
        = (.event (cb : Int) (cx : Int) (cy : Int) k, rest)
      ∧ (k = .press ↔ term = 77 ∧ cb < 32)
      ∧ (k = .motion ↔ term = 77 ∧ 32 ≤ cb)
      ∧ (k = .release ↔ term = 109) := by
  refine ⟨classify (cb : Int) term,
    readEvent_sgrBytes cb cx cy term rest ht hcb hcx hcy hlen, ?_, ?_, ?_⟩
  all_goals
    unfold classify
    rcases ht with rfl | rfl <;> by_cases h32 : (cb : Int) < 32 <;> simp [h32] <;> omega

/-- Witness for C1 at `Cb = 0`, `Cx = 10`, `Cy = 20`, terminator `M`. -/
theorem mouse_C1_witness :
    ∃ k : EvType,
      readEvent .top (sgrBytes 0 10 20 77 ++ [])
        = (.event ((0 : Nat) : Int) ((10 : Nat) : Int) ((20 : Nat) : Int) k, [])
      ∧ (k = .press ↔ (77 : Nat) = 77 ∧ (0 : Nat) < 32)
      ∧ (k = .motion ↔ (77 : Nat) = 77 ∧ 32 ≤ (0 : Nat))
      ∧ (k = .release ↔ (77 : Nat) = 109) :=
  mouse_C1 0 10 20 77 [] (Or.inl rfl) (by norm_num) (by norm_num) (by norm_num) (by decide)

/-- Counterexample to C2 as stated: a CR byte (13) arriving while a
partial escape sequence is in progress (right after ESC, where the
decoder expects `[`) is consumed silently and Enter is never reported -
on the stream `ESC CR` the call runs off the end of the input and
reports EOF, not Enter. -/
theorem mouse_C2_counterexample :
    readEvent .top [27, 13] = (.eof, [])
    ∧ (readEvent .top [27, 13]).1 ≠ ReadRes.enter := by
  decide

/-- C2 (amended): a CR (13) or LF (10) byte read at the top-level
scanning state always yields Enter immediately, consuming only that
byte; but a CR/LF arriving while the decoder is mid-escape-sequence
(expecting `[` after ESC, or `<` after `ESC [`) is consumed as the
expected byte and merely sends the loop back to the top - the partial
sequence is abandoned AND the CR/LF byte is eaten rather than reported
as Enter.  (Inside the SGR body the CR/LF is likewise absorbed into the
scratch buffer.) -/
theorem mouse_C2_amended (rest : List Nat) :
    readEvent .top (13 :: rest) = (.enter, rest)
    ∧ readEvent .top (10 :: rest) = (.enter, rest)
    ∧ readEvent .esc (13 :: rest) = readEvent .top rest
    ∧ readEvent .esc (10 :: rest) = readEvent .top rest
    ∧ readEvent .br (13 :: rest) = readEvent .top rest
    ∧ readEvent .br (10 :: rest) = readEvent .top rest := by
  refine ⟨?_, ?_, ?_, ?_, ?_, ?_⟩
  · exact readEvent_cons_inr (show stepByte .top 13 = .inr .enter by decide) rest
  · exact readEvent_cons_inr (show stepByte .top 10 = .inr .enter by decide) rest
  · exact readEvent_cons_inl (show stepByte .esc 13 = .inl .top by decide) rest
  · exact readEvent_cons_inl (show stepByte .esc 10 = .inl .top by decide) rest
  · exact readEvent_cons_inl (show stepByte .br 13 = .inl .top by decide) rest
  · exact readEvent_cons_inl (show stepByte .br 10 = .inl .top by decide) rest

/-- Counterexample to C3 as stated.  First conjunct: the stream contains
the truncated sequence `ESC [ < 1 ; 2` (no terminator) followed by the
valid sequence `ESC [ < 1 ; 2 ; 3 M`; the accumulation loop absorbs the
second sequence into the first's buffer up to the `M`, the merged buffer
parses successfully, and the decoder emits the spurious event
`(button 1, x 2, y 2, Press)` - the malformed sequence produced an
event, and the following valid sequence (whose correct event is
`(1, 2, 3)`) was destroyed.  Second conjunct: the sequence
`ESC [ < 1 a ; 2 ; 3 M` has a non-numeric field `1a`, yet `strtol`
ignores the trailing junk and an event is emitted. -/
theorem mouse_C3_counterexample :
    readEvent .top [27, 91, 60, 49, 59, 50, 27, 91, 60, 49, 59, 50, 59, 51, 77]
      = (.event 1 2 2 .press, [])
    ∧ readEvent .top [27, 91, 60, 49, 97, 59, 50, 59, 51, 77]
      = (.event 1 2 3 .press, []) := by
  decide

/-- C3 (amended): a malformed sequence that reaches a terminator byte
within the scratch-buffer bound but whose buffer fails `parse_sgr`
(missing semicolon, or a field with no leading decimal integer) produces
no event; the decoder resumes byte-at-a-time scanning right after the
terminator, and a following valid SGR sequence decodes to its correct
event.  (Per the counterexample, this does not extend to sequences
truncated before their terminator, nor to fields with trailing junk
after a leading integer: those can emit spurious events and swallow the
following valid sequence.) -/
theorem mouse_C3_amended (body : List Nat) (term : Nat) (rest : List Nat)
    (hb : ∀ b ∈ body, b ≠ 77 ∧ b ≠ 109) (ht : term = 77 ∨ term = 109)
    (hlen : body.length ≤ 125)
    (hfail : parse_sgr ((60 :: body) ++ [term]) = none) :
    readEvent .top (([27, 91, 60] ++ body ++ [term]) ++ rest) = readEvent .top rest
    ∧ ∀ cb cx cy term2 : Nat, (term2 = 77 ∨ term2 = 109) →
        cb < 2 ^ 31 → cx < 2 ^ 31 → cy < 2 ^ 31 →
        (encNat cb).length + (encNat cx).length + (encNat cy).length + 2 ≤ 125 →
        ∀ rest2 : List Nat,
          readEvent .top (([27, 91, 60] ++ body ++ [term]) ++ sgrBytes cb cx cy term2 ++ rest2)
            = (.event (cb : Int) (cx : Int) (cy : Int) (classify (cb : Int) term2), rest2) := by
  have h1 : ∀ r : List Nat, readEvent .top (27 :: 91 :: 60 :: (body ++ term :: r))
      = readEvent .top r := by
    intro r
    rw [readEvent_cons_inl (show stepByte .top 27 = .inl .esc by decide) _]
    rw [readEvent_cons_inl (show stepByte .esc 91 = .inl .br by decide) _]
    rw [readEvent_cons_inl (show stepByte .br 60 = .inl (.accum [60]) by decide) _]
    rw [readEvent_accum body [60] term r hb ht (by
      simp only [List.length_cons, List.length_nil]; omega)]
    have harg : ([60] : List Nat) ++ (body ++ [term]) = (60 :: body) ++ [term] := by simp
    rw [harg, hfail]
  constructor
  · have h2 := h1 rest
    have hstream : ([27, 91, 60] ++ body ++ [term]) ++ rest
        = 27 :: 91 :: 60 :: (body ++ term :: rest) := by simp
    rw [hstream, h2]
  · intro cb cx cy term2 ht2 hcb hcx hcy hlen2 rest2
    have h2 := h1 (sgrBytes cb cx cy term2 ++ rest2)
    rw [readEvent_sgrBytes cb cx cy term2 rest2 ht2 hcb hcx hcy hlen2] at h2
    have hstream : ([27, 91, 60] ++ body ++ [term]) ++ sgrBytes cb cx cy term2 ++ rest2
        = 27 :: 91 :: 60 :: (body ++ term :: (sgrBytes cb cx cy term2 ++ rest2)) := by simp
    rw [hstream, h2]

/-- Witness for the amended C3: the malformed sequence
`ESC [ < a ; 2 ; 3 M` (field `a` has no leading integer) is skipped and
the valid sequence `ESC [ < 1 ; 2 ; 3 M` after it decodes correctly. -/
theorem mouse_C3_amended_witness :
    readEvent .top (([27, 91, 60] ++ [97, 59, 50, 59, 51] ++ [77]) ++ sgrBytes 1 2 3 77 ++ [])
      = (.event ((1 : Nat) : Int) ((2 : Nat) : Int) ((3 : Nat) : Int)
          (classify ((1 : Nat) : Int) 77), []) :=
  (mouse_C3_amended [97, 59, 50, 59, 51] 77 [] (by decide) (Or.inl rfl) (by decide)
    (by decide)).2 1 2 3 77 (Or.inl rfl) (by norm_num) (by norm_num) (by norm_num) (by decide) []

/-! ## Proof layer: the multiclick clusterer -/

/-- Once `count` has reached `N` the follow-up loop reports `last`
whatever input remains. -/
theorem click_followups_done (fx fy : Int) (N count : Nat) (last : event_t) (clock : ℚ)
    (src : List TimedItem) (h : N ≤ count) :
    click_followups fx fy N count last clock src = some last := by
  cases src <;> simp [click_followups, h]

/-- `clusterResult` of a nonempty run of accepted presses is the last
press, stamped at its cumulative arrival time. -/
theorem clusterResult_last (ps : List PressSpec) : ∀ (last : event_t) (clock : ℚ), ps ≠ [] →
    clusterResult last clock ps =
      ⟨(ps.getLastD default).px, (ps.getLastD default).py, (ps.getLastD default).button, .press,
        clock + (ps.map PressSpec.delay).sum⟩ := by
  induction ps with
  | nil => intro _ _ h; exact absurd rfl h
  | cons p ps ih =>
    intro last clock _
    cases ps with
    | nil =>
      simp [clusterResult, List.getLastD_eq_getLast?]
    | cons q qs =>
      rw [clusterResult, ih _ _ (by simp)]
      have hlast : ((q :: qs).getLastD default) = ((p :: q :: qs).getLastD default) := by
        simp [List.getLastD_eq_getLast?]
      rw [hlast]
      simp only [List.map_cons, List.sum_cons]
      congr 1
      ring

/-- Dispatch of one follow-up iteration whose read delivers an event. -/
theorem click_followups_cons_ev (fx fy : Int) (N count : Nat) (last : event_t) (clock : ℚ)
    (ti : TimedItem) (rest : List TimedItem) (e : event_t) (c2 : ℚ) (rem : List TimedItem)
    (hcount : ¬ N ≤ count)
    (h : readTimed (some MULTICLICK_MAX_GAP) clock (ti :: rest) = (.ev e, c2, rem)) :
    click_followups fx fy N count last clock (ti :: rest)
      = (if e.type ≠ .press then click_followups fx fy N count last c2 rest
         else if (fx - e.x) * (fx - e.x) + (fy - e.y) * (fy - e.y)
             ≤ MULTICLICK_RADIUS * MULTICLICK_RADIUS then
           click_followups fx fy N (count + 1) e c2 rest
         else none) := by
  rw [click_followups, if_neg hcount, h]

/-- A run of `ps.length` presses, each within the gap and within the
radius of `(fx, fy)`, drives the follow-up loop from `count` to `N` and
reports the stamped last press. -/
theorem click_followups_run (ps : List PressSpec) :
    ∀ (fx fy : Int) (N count : Nat) (last : event_t) (clock : ℚ) (rest : List TimedItem),
    count + ps.length = N →
    (∀ p ∈ ps, p.delay ≤ MULTICLICK_MAX_GAP
      ∧ (fx - p.px) * (fx - p.px) + (fy - p.py) * (fy - p.py)
          ≤ MULTICLICK_RADIUS * MULTICLICK_RADIUS) →
    click_followups fx fy N count last clock (ps.map PressSpec.toItem ++ rest)
      = some (clusterResult last clock ps) := by
  induction ps with
  | nil =>
    intro fx fy N count last clock rest hc _
    rw [List.map_nil, List.nil_append, clusterResult]
    exact click_followups_done fx fy N count last clock rest (by
      simp only [List.length_nil] at hc; omega)
  | cons p ps ih =>
    intro fx fy N count last clock rest hc hp
    have hp1 := hp p (by simp)
    have hcount : ¬ N ≤ count := by
      simp only [List.length_cons] at hc; omega
    have hread : readTimed (some MULTICLICK_MAX_GAP) clock
        (p.toItem :: (ps.map PressSpec.toItem ++ rest))
        = (.ev ⟨p.px, p.py, p.button, .press, clock + p.delay⟩, clock + p.delay,
            ps.map PressSpec.toItem ++ rest) := by
      rw [readTimed]
      simp only [PressSpec.toItem]
      rw [if_pos hp1.1]
      simp [deliver, PressSpec.toItem]
    rw [List.map_cons, List.cons_append,
      click_followups_cons_ev fx fy N count last clock p.toItem (ps.map PressSpec.toItem ++ rest)
        _ _ _ hcount hread]
    rw [if_neg (by simp)]
    rw [if_pos (by simpa using hp1.2)]
    rw [ih fx fy N (count + 1) _ (clock + p.delay) rest (by
      simp only [List.length_cons] at hc; omega) (fun q hq => hp q (by simp [hq]))]
    rw [clusterResult]

/-- The blocking wait delivers the head item; when it is a press it is
returned as the anchor. -/
theorem wait_for_first_press_cons_press (a : PressSpec) (clock : ℚ) (rest : List TimedItem) :
    wait_for_first_press clock (a.toItem :: rest)
      = some (⟨a.px, a.py, a.button, .press, clock + a.delay⟩, clock + a.delay, rest) := by
  have hr : readTimed none clock (a.toItem :: rest)
      = (.ev ⟨a.px, a.py, a.button, .press, clock + a.delay⟩, clock + a.delay, rest) := by
    rw [readTimed]
    simp [deliver, PressSpec.toItem]
  rw [wait_for_first_press, hr]
  simp

/-! ## Claims C4, C5: the multiclick clusterer -/

/-- C4: a multiclick run with required count `N` that succeeds reports
the LAST accepted press, not the anchor.  Part 1: for `N >= 2`, an
anchor press followed by `N - 1` presses - each arriving within the
fixed gap and within the fixed radius of the anchor - yields the last of
those presses (with its own coordinates and arrival stamp).  Part 2: for
`N = 1` the anchor itself is the result.  Part 3: the concrete `N = 3`
scenario with presses at (10,10), (11,10), (10,11) reports (10,11). -/
theorem mouse_C4 :
    (∀ (N : Nat) (a : PressSpec) (ps : List PressSpec) (rest : List TimedItem) (clock : ℚ),
      2 ≤ N → ps.length = N - 1 →
      (∀ p ∈ ps, p.delay ≤ MULTICLICK_MAX_GAP
        ∧ (a.px - p.px) * (a.px - p.px) + (a.py - p.py) * (a.py - p.py)
            ≤ MULTICLICK_RADIUS * MULTICLICK_RADIUS) →
      handle_click_mode N clock (a.toItem :: (ps.map PressSpec.toItem ++ rest))
        = some ⟨(ps.getLastD default).px, (ps.getLastD default).py,
            (ps.getLastD default).button, .press,
            clock + a.delay + (ps.map PressSpec.delay).sum⟩)
    ∧ (∀ (a : PressSpec) (rest : List TimedItem) (clock : ℚ),
        handle_click_mode 1 clock (a.toItem :: rest)
          = some ⟨a.px, a.py, a.button, .press, clock + a.delay⟩)
    ∧ handle_click_mode 3 0
        (PressSpec.toItem ⟨0, 0, 10, 10⟩
          :: ([⟨1/10, 0, 11, 10⟩, ⟨1/10, 0, 10, 11⟩].map PressSpec.toItem ++ []))
        = some ⟨10, 11, 0, .press, 1/5⟩ := by
  have hmain : ∀ (N : Nat) (a : PressSpec) (ps : List PressSpec) (rest : List TimedItem)
      (clock : ℚ), 2 ≤ N → ps.length = N - 1 →
      (∀ p ∈ ps, p.delay ≤ MULTICLICK_MAX_GAP
        ∧ (a.px - p.px) * (a.px - p.px) + (a.py - p.py) * (a.py - p.py)
            ≤ MULTICLICK_RADIUS * MULTICLICK_RADIUS) →
      handle_click_mode N clock (a.toItem :: (ps.map PressSpec.toItem ++ rest))
        = some ⟨(ps.getLastD default).px, (ps.getLastD default).py,
            (ps.getLastD default).button, .press,
            clock + a.delay + (ps.map PressSpec.delay).sum⟩ := by
    intro N a ps rest clock hN hlen hp
    rw [handle_click_mode, wait_for_first_press_cons_press]
    simp only
    rw [if_pos (by omega : 1 < N)]
    rw [click_followups_run ps a.px a.py N 1 _ (clock + a.delay) rest (by omega) hp]
    rw [clusterResult_last ps _ _ (by
      intro hnil
      rw [hnil] at hlen
      simp only [List.length_nil] at hlen
      omega)]
  refine ⟨hmain, ?_, ?_⟩
  · intro a rest clock
    rw [handle_click_mode, wait_for_first_press_cons_press]
    simp
  · rw [hmain 3 ⟨0, 0, 10, 10⟩ [⟨1/10, 0, 11, 10⟩, ⟨1/10, 0, 10, 11⟩] [] 0 (by norm_num)
      (by simp)
      (by
        intro p hp
        simp only [List.mem_cons, List.not_mem_nil, or_false] at hp
        rcases hp with rfl | rfl <;>
          refine ⟨by norm_num [MULTICLICK_MAX_GAP], by norm_num [MULTICLICK_RADIUS]⟩)]
    simp only [List.getLastD_eq_getLast?]
    norm_num

/-- Witness for C4 (part 2 at concrete data): a single-click run reports
the anchor press itself. -/
theorem mouse_C4_witness :
    handle_click_mode 1 0 (PressSpec.toItem ⟨1/4, 2, 7, 8⟩ :: [])
      = some ⟨7, 8, 2, .press, 0 + 1/4⟩ :=
  mouse_C4.2.1 ⟨1/4, 2, 7, 8⟩ [] 0

/-- C5: behaviour of the follow-up wait while `count < N`.
Part 1: an item that becomes readable only after the fixed gap is a
timeout and a failure.  Part 2: Enter is a failure.  Part 3: source
termination is a failure.  Part 4: a press farther than the fixed radius
(squared distance to the anchor) is a failure.  Part 5: a non-press
event is ignored - the count, the candidate and the input position
advance past it unchanged.  Part 6: a press within the radius increments
the count and becomes the new last candidate.  Part 7 (re-arm): each
wait re-arms the same fixed gap instead of tracking one absolute
deadline - any number `k` of intervening motion events, each arriving a
full gap apart, still lets a final in-radius press complete an `N = 2`
cluster, even though the total elapsed time `(k+1) * gap` exceeds the
gap whenever `k >= 1`. -/
theorem mouse_C5 :
    (∀ (fx fy : Int) (N count : Nat) (last : event_t) (clock d : ℚ) (it : SrcItem)
        (rest : List TimedItem), count < N → MULTICLICK_MAX_GAP < d →
        click_followups fx fy N count last clock (⟨d, it⟩ :: rest) = none)
    ∧ (∀ (fx fy : Int) (N count : Nat) (last : event_t) (clock d : ℚ)
        (rest : List TimedItem), count < N → d ≤ MULTICLICK_MAX_GAP →
        click_followups fx fy N count last clock (⟨d, .enter⟩ :: rest) = none)
    ∧ (∀ (fx fy : Int) (N count : Nat) (last : event_t) (clock : ℚ), count < N →
        click_followups fx fy N count last clock [] = none)
    ∧ (∀ (fx fy : Int) (N count : Nat) (last : event_t) (clock d : ℚ) (b x y : Int)
        (rest : List TimedItem), count < N → d ≤ MULTICLICK_MAX_GAP →
        MULTICLICK_RADIUS * MULTICLICK_RADIUS < (fx - x) * (fx - x) + (fy - y) * (fy - y) →
        click_followups fx fy N count last clock (⟨d, .ev b x y .press⟩ :: rest) = none)
    ∧ (∀ (fx fy : Int) (N count : Nat) (last : event_t) (clock d : ℚ) (b x y : Int)
        (k : EvType) (rest : List TimedItem), count < N → d ≤ MULTICLICK_MAX_GAP →
        k ≠ .press →
        click_followups fx fy N count last clock (⟨d, .ev b x y k⟩ :: rest)
          = click_followups fx fy N count last (clock + d) rest)
    ∧ (∀ (fx fy : Int) (N count : Nat) (last : event_t) (clock d : ℚ) (b x y : Int)
        (rest : List TimedItem), count < N → d ≤ MULTICLICK_MAX_GAP →
        (fx - x) * (fx - x) + (fy - y) * (fy - y) ≤ MULTICLICK_RADIUS * MULTICLICK_RADIUS →
        click_followups fx fy N count last clock (⟨d, .ev b x y .press⟩ :: rest)
          = click_followups fx fy N (count + 1) ⟨x, y, b, .press, clock + d⟩ (clock + d) rest)
    ∧ (∀ (k : Nat) (last : event_t) (clock : ℚ),
        click_followups 0 0 2 1 last clock
          (List.replicate k ⟨MULTICLICK_MAX_GAP, .ev 0 0 0 .motion⟩
            ++ [⟨MULTICLICK_MAX_GAP, .ev 0 0 0 .press⟩])
          = some ⟨0, 0, 0, .press, clock + ((k : ℚ) + 1) * MULTICLICK_MAX_GAP⟩) := by
  have hdeliver : ∀ (d : ℚ) (it : SrcItem) (clock : ℚ) (rest : List TimedItem),
      d ≤ MULTICLICK_MAX_GAP →
      readTimed (some MULTICLICK_MAX_GAP) clock (⟨d, it⟩ :: rest)
        = (deliver ⟨d, it⟩ (clock + d), clock + d, rest) := by
    intro d it clock rest hd
    rw [readTimed, if_pos hd]
  refine ⟨?_, ?_, ?_, ?_, ?_, ?_, ?_⟩
  · intro fx fy N count last clock d it rest hcount hd
    rw [click_followups, if_neg (by omega : ¬ N ≤ count)]
    rw [show readTimed (some MULTICLICK_MAX_GAP) clock (⟨d, it⟩ :: rest)
        = (.timeout, clock + MULTICLICK_MAX_GAP, ⟨d - MULTICLICK_MAX_GAP, it⟩ :: rest) by
      rw [readTimed, if_neg (not_le.mpr hd)]]
  · intro fx fy N count last clock d rest hcount hd
    rw [click_followups, if_neg (by omega : ¬ N ≤ count), hdeliver d .enter clock rest hd]
    rfl
  · intro fx fy N count last clock hcount
    rw [click_followups, if_neg (by omega : ¬ N ≤ count)]
  · intro fx fy N count last clock d b x y rest hcount hd hfar
    rw [click_followups_cons_ev fx fy N count last clock _ rest _ _ _
      (by omega : ¬ N ≤ count) (by rw [hdeliver d (.ev b x y .press) clock rest hd]; rfl)]
    rw [if_neg (by simp), if_neg (not_le.mpr hfar)]
  · intro fx fy N count last clock d b x y k rest hcount hd hk
    rw [click_followups_cons_ev fx fy N count last clock _ rest _ _ _
      (by omega : ¬ N ≤ count) (by rw [hdeliver d (.ev b x y k) clock rest hd]; rfl)]
    rw [if_pos (by simpa using hk)]
  · intro fx fy N count last clock d b x y rest hcount hd hnear
    rw [click_followups_cons_ev fx fy N count last clock _ rest _ _ _
      (by omega : ¬ N ≤ count) (by rw [hdeliver d (.ev b x y .press) clock rest hd]; rfl)]
    rw [if_neg (by simp), if_pos (by simpa using hnear)]
  · intro k
    induction k with
    | zero =>
      intro last clock
      rw [List.replicate_zero, List.nil_append]
      rw [click_followups_cons_ev 0 0 2 1 last clock _ [] _ _ _ (by omega)
        (by rw [hdeliver MULTICLICK_MAX_GAP (.ev 0 0 0 .press) clock [] le_rfl]; rfl)]
      rw [if_neg (by simp), if_pos (by norm_num [MULTICLICK_RADIUS])]
      rw [click_followups_done 0 0 2 2 _ _ [] le_rfl]
      norm_num
    | succ k ihk =>
      intro last clock
      rw [List.replicate_succ, List.cons_append]
      rw [click_followups_cons_ev 0 0 2 1 last clock _ _ _ _ _ (by omega)
        (by rw [hdeliver MULTICLICK_MAX_GAP (.ev 0 0 0 .motion) clock _ le_rfl]; rfl)]
      rw [if_pos (by simp)]
      rw [ihk last (clock + MULTICLICK_MAX_GAP)]
      congr 2
      push_cast
      ring

/-- Witness for C5 (part 3 at concrete data): source termination while
one more press is still required fails the cluster. -/
theorem mouse_C5_witness :
    click_followups 0 0 2 1 default 0 [] = none :=
  mouse_C5.2.2.1 0 0 2 1 default 0 (by norm_num)

/-! ## Proof layer: the main capture loop -/

/-- The loop on an exhausted source. -/
theorem main_loop_nil (cfg : MainCfg) (st : MainSt) (clock : ℚ) :
    main_loop cfg st clock []
      = if cfg.record_mode = true ∧ cfg.record_seconds - clock ≤ 0 then (st, .timeExpired, [])
        else (st, .terminated, []) := by
  rw [main_loop]

/-- One non-record iteration, with the delivered result dispatched and
the C locals inlined. -/
theorem main_loop_nonrec_cons (cfg : MainCfg) (hrec : cfg.record_mode = false)
    (st : MainSt) (clock : ℚ) (ti : TimedItem) (rest : List TimedItem) :
    main_loop cfg st clock (ti :: rest)
      = match deliver ti (clock + ti.delay) with
        | .eof => (st, .terminated, rest)
        | .timeout => (st, .timeExpired, rest)
        | .enter => (st, .enterKey, rest)
        | .ev e =>
          if cfg.infinite = false ∧ cfg.count_limit = 0
              ∧ 1 ≤ (main_step cfg { st with consumed := st.consumed ++ [e] } e).outputs then
            (main_step cfg { st with consumed := st.consumed ++ [e] } e, .limitReached, rest)
          else if cfg.infinite = false ∧ 0 < cfg.count_limit
              ∧ cfg.count_limit
                  ≤ (main_step cfg { st with consumed := st.consumed ++ [e] } e).outputs then
            (main_step cfg { st with consumed := st.consumed ++ [e] } e, .limitReached, rest)
          else main_loop cfg (main_step cfg { st with consumed := st.consumed ++ [e] } e)
            (clock + ti.delay) rest := by
  rw [main_loop, if_neg (by simp [hrec])]
  rw [show (if cfg.record_mode = true then some (cfg.record_seconds - clock) else none)
      = (none : Option ℚ) by simp [hrec]]
  rw [readTimed]
  cases hit : deliver ti (clock + ti.delay) with
  | eof => rfl
  | timeout => rfl
  | enter => rfl
  | ev e => simp [hrec]

/-- One record iteration before the deadline, with the delivered result
dispatched. -/
theorem main_loop_rec_cons (cfg : MainCfg) (hrec : cfg.record_mode = true)
    (st : MainSt) (clock : ℚ) (ti : TimedItem) (rest : List TimedItem)
    (htime : ¬ cfg.record_seconds - clock ≤ 0) :
    main_loop cfg st clock (ti :: rest)
      = if ti.delay ≤ cfg.record_seconds - clock then
          (match deliver ti (clock + ti.delay) with
           | .eof => (st, .terminated, rest)
           | .timeout => (st, .timeExpired, rest)
           | .enter => (st, .enterKey, rest)
           | .ev e =>
             main_loop cfg
               (if st.events.length < cfg.max_events then
                 { st with consumed := st.consumed ++ [e], events := st.events ++ [e] }
                else { st with consumed := st.consumed ++ [e] }) (clock + ti.delay) rest)
        else (st, .timeExpired, ⟨ti.delay - (cfg.record_seconds - clock), ti.item⟩ :: rest) := by
  rw [main_loop, if_neg (by rw [hrec]; simpa using htime)]
  rw [show (if cfg.record_mode = true then some (cfg.record_seconds - clock) else none)
      = some (cfg.record_seconds - clock) by simp [hrec]]
  rw [readTimed]
  by_cases hdel : ti.delay ≤ cfg.record_seconds - clock
  · rw [if_pos hdel, if_pos hdel]
    cases hit : deliver ti (clock + ti.delay) with
    | eof => rfl
    | timeout => rfl
    | enter => rfl
    | ev e => simp [hrec]
  · rw [if_neg hdel, if_neg hdel]

/-- The loop at an expired deadline stops without reading. -/
theorem main_loop_expired (cfg : MainCfg) (st : MainSt) (clock : ℚ) (ti : TimedItem)
    (rest : List TimedItem) (h : cfg.record_mode = true ∧ cfg.record_seconds - clock ≤ 0) :
    main_loop cfg st clock (ti :: rest) = (st, .timeExpired, ti :: rest) := by
  rw [main_loop, if_pos h]

/-- `main_step` only appends to the output streams, counts exactly the
presses, and leaves `consumed` and `events` unchanged. -/
theorem main_step_fields (cfg : MainCfg) (st : MainSt) (e : event_t) :
    (main_step cfg st e).outputs = st.outputs + (if e.type = .press then 1 else 0)
    ∧ (main_step cfg st e).consumed = st.consumed
    ∧ (main_step cfg st e).events = st.events
    ∧ (main_step cfg st e).outs = st.outs ++
        (if cfg.out_mode = .json ∨ cfg.out_mode = .pretty then [(e, emit_dt st e)] else [])
    ∧ (main_step cfg st e).marks = st.marks ++
        (if cfg.do_mark = true ∧ e.type = .press then [(e.x, e.y)] else []) := by
  refine ⟨rfl, rfl, rfl, rfl, rfl⟩

/-- Appending one event to a list adds its press indicator to the press
count. -/
theorem countPress_append_one (l : List event_t) (e : event_t) :
    countPress (l ++ [e]) = countPress l + (if e.type = .press then 1 else 0) := by
  by_cases h : e.type = .press <;>
    simp [countPress, List.filter_append, h]

/-- Invariant of the non-record loop: `outputs` equals the number of
press events consumed so far. -/
theorem main_loop_outputs_inv (cfg : MainCfg) (hrec : cfg.record_mode = false) :
    ∀ (src : List TimedItem) (st : MainSt) (clock : ℚ),
    st.outputs = countPress st.consumed →
    (main_loop cfg st clock src).1.outputs
      = countPress (main_loop cfg st clock src).1.consumed := by
  intro src
  induction src with
  | nil =>
    intro st clock h
    rw [main_loop_nil, if_neg (by simp [hrec])]
    exact h
  | cons ti rest ih =>
    intro st clock h
    rw [main_loop_nonrec_cons cfg hrec st clock ti rest]
    cases hit : deliver ti (clock + ti.delay) with
    | eof => exact h
    | timeout => exact h
    | enter => exact h
    | ev e =>
      have hstep : (main_step cfg { st with consumed := st.consumed ++ [e] } e).outputs
          = countPress (main_step cfg { st with consumed := st.consumed ++ [e] } e).consumed := by
        rw [(main_step_fields cfg { st with consumed := st.consumed ++ [e] } e).1,
          (main_step_fields cfg { st with consumed := st.consumed ++ [e] } e).2.1]
        show st.outputs + (if e.type = .press then 1 else 0) = countPress (st.consumed ++ [e])
        rw [countPress_append_one, h]
      dsimp only
      split
      · exact hstep
      · split
        · exact hstep
        · exact ih _ (clock + ti.delay) hstep

/-- Invariant of the non-record loop in the JSON modes: the buffered
`outs` lists exactly the consumed events, in order. -/
theorem main_loop_outs_inv (cfg : MainCfg) (hrec : cfg.record_mode = false)
    (hmode : cfg.out_mode = .json ∨ cfg.out_mode = .pretty) :
    ∀ (src : List TimedItem) (st : MainSt) (clock : ℚ),
    st.outs.map Prod.fst = st.consumed →
    (main_loop cfg st clock src).1.outs.map Prod.fst
      = (main_loop cfg st clock src).1.consumed := by
  intro src
  induction src with
  | nil =>
    intro st clock h
    rw [main_loop_nil, if_neg (by simp [hrec])]
    exact h
  | cons ti rest ih =>
    intro st clock h
    rw [main_loop_nonrec_cons cfg hrec st clock ti rest]
    cases hit : deliver ti (clock + ti.delay) with
    | eof => exact h
    | timeout => exact h
    | enter => exact h
    | ev e =>
      have hstep : (main_step cfg { st with consumed := st.consumed ++ [e] } e).outs.map Prod.fst
          = (main_step cfg { st with consumed := st.consumed ++ [e] } e).consumed := by
        rw [(main_step_fields cfg { st with consumed := st.consumed ++ [e] } e).2.2.2.1,
          (main_step_fields cfg { st with consumed := st.consumed ++ [e] } e).2.1,
          if_pos hmode]
        show (st.outs ++ [(e, emit_dt { st with consumed := st.consumed ++ [e] } e)]).map Prod.fst
          = st.consumed ++ [e]
        rw [List.map_append, h]
        simp
      dsimp only
      split
      · exact hstep
      · split
        · exact hstep
        · exact ih _ (clock + ti.delay) hstep

/-- Invariant of the non-record, non-infinite loop: the loop stops with
`limitReached` exactly when the press count reaches the effective limit
(`count_limit`, defaulting to 1 when 0), and never exceeds it. -/
theorem main_loop_limit_inv (cfg : MainCfg) (hrec : cfg.record_mode = false)
    (hinf : cfg.infinite = false) :
    ∀ (src : List TimedItem) (st : MainSt) (clock : ℚ),
    st.outputs < (if cfg.count_limit = 0 then 1 else cfg.count_limit) →
    ((main_loop cfg st clock src).2.1 = .limitReached
        ↔ (main_loop cfg st clock src).1.outputs
            = (if cfg.count_limit = 0 then 1 else cfg.count_limit))
    ∧ (main_loop cfg st clock src).1.outputs
        ≤ (if cfg.count_limit = 0 then 1 else cfg.count_limit) := by
  intro src
  induction src with
  | nil =>
    intro st clock h
    rw [main_loop_nil, if_neg (by simp [hrec])]
    exact ⟨by simp; omega, by dsimp only; omega⟩
  | cons ti rest ih =>
    intro st clock h
    rw [main_loop_nonrec_cons cfg hrec st clock ti rest]
    cases hit : deliver ti (clock + ti.delay) with
    | eof => exact ⟨by simp; omega, by dsimp only; omega⟩
    | timeout => exact ⟨by simp; omega, by dsimp only; omega⟩
    | enter => exact ⟨by simp; omega, by dsimp only; omega⟩
    | ev e =>
      have hout := (main_step_fields cfg { st with consumed := st.consumed ++ [e] } e).1
      dsimp only at hout
      have hle : (main_step cfg { st with consumed := st.consumed ++ [e] } e).outputs
          ≤ st.outputs + 1 := by
        rw [hout]; split <;> omega
      have hge : st.outputs
          ≤ (main_step cfg { st with consumed := st.consumed ++ [e] } e).outputs := by
        rw [hout]; split <;> omega
      dsimp only
      by_cases hA : cfg.infinite = false ∧ cfg.count_limit = 0
          ∧ 1 ≤ (main_step cfg { st with consumed := st.consumed ++ [e] } e).outputs
      · rw [if_pos hA]
        have hN1 : (if cfg.count_limit = 0 then 1 else cfg.count_limit) = 1 := by
          rw [if_pos hA.2.1]
        have h1 := hA.2.2
        rw [hN1] at h ⊢
        dsimp only
        exact ⟨⟨fun _ => by omega, fun _ => rfl⟩, by omega⟩
      · rw [if_neg hA]
        by_cases hB : cfg.infinite = false ∧ 0 < cfg.count_limit
            ∧ cfg.count_limit ≤ (main_step cfg { st with consumed := st.consumed ++ [e] } e).outputs
        · rw [if_pos hB]
          have hN2 : (if cfg.count_limit = 0 then 1 else cfg.count_limit) = cfg.count_limit := by
            rw [if_neg (by omega)]
          have h1 := hB.2.2
          rw [hN2] at h ⊢
          dsimp only
          exact ⟨⟨fun _ => by omega, fun _ => rfl⟩, by omega⟩
        · rw [if_neg hB]
          apply ih
          by_cases hcl : cfg.count_limit = 0
          · have h2 : ¬ 1 ≤ (main_step cfg { st with consumed := st.consumed ++ [e] } e).outputs :=
              fun hx => hA ⟨hinf, hcl, hx⟩
            rw [if_pos hcl] at h ⊢
            omega
          · have h2 : ¬ cfg.count_limit
                ≤ (main_step cfg { st with consumed := st.consumed ++ [e] } e).outputs :=
              fun hx => hB ⟨hinf, by omega, hx⟩
            rw [if_neg hcl] at h ⊢
            omega

/-! ## Claim C6: single/limited capture mode -/

/-- C6: in non-record, non-infinite (single/limited) mode with effective
output limit `N` (`count_limit`, defaulting to 1 when unset): only Press
events are counted (`outputs` equals the press count of the consumed
events); in the JSON modes Motion/Release events are buffered in `outs`
alongside the presses but still do not count; the loop stops with
`limitReached` exactly when the press count reaches `N` and never
exceeds it; and an Enter result or source termination stops it
immediately with nothing consumed. -/
theorem mouse_C6 (cfg : MainCfg) (src : List TimedItem) (clock : ℚ)
    (hrec : cfg.record_mode = false) (hinf : cfg.infinite = false) :
    ((main_loop cfg init_state clock src).1.outputs
        = countPress (main_loop cfg init_state clock src).1.consumed)
    ∧ (cfg.out_mode = .json ∨ cfg.out_mode = .pretty →
        (main_loop cfg init_state clock src).1.outs.map Prod.fst
          = (main_loop cfg init_state clock src).1.consumed)
    ∧ ((main_loop cfg init_state clock src).2.1 = .limitReached
        ↔ (main_loop cfg init_state clock src).1.outputs
            = (if cfg.count_limit = 0 then 1 else cfg.count_limit))
    ∧ (main_loop cfg init_state clock src).1.outputs
        ≤ (if cfg.count_limit = 0 then 1 else cfg.count_limit)
    ∧ (∀ (st : MainSt) (c d : ℚ) (rest : List TimedItem),
        main_loop cfg st c (⟨d, .enter⟩ :: rest) = (st, .enterKey, rest))
    ∧ (∀ (st : MainSt) (c : ℚ), main_loop cfg st c [] = (st, .terminated, [])) := by
  have hinit : init_state.outputs < (if cfg.count_limit = 0 then 1 else cfg.count_limit) := by
    show 0 < _
    split <;> omega
  refine ⟨main_loop_outputs_inv cfg hrec src init_state clock rfl,
    fun hmode => main_loop_outs_inv cfg hrec hmode src init_state clock rfl,
    (main_loop_limit_inv cfg hrec hinf src init_state clock hinit).1,
    (main_loop_limit_inv cfg hrec hinf src init_state clock hinit).2, ?_, ?_⟩
  · intro st c d rest
    rw [main_loop_nonrec_cons cfg hrec st c ⟨d, .enter⟩ rest]
    rfl
  · intro st c
    rw [main_loop_nil, if_neg (by simp [hrec])]

/-- Witness for C6 at a concrete configuration (CSV, default limit,
empty source). -/
theorem mouse_C6_witness :
    (main_loop ⟨false, 0, false, 0, 0, .csv, false⟩ init_state 0 []).1.outputs
      = countPress (main_loop ⟨false, 0, false, 0, 0, .csv, false⟩ init_state 0 []).1.consumed :=
  (mouse_C6 ⟨false, 0, false, 0, 0, .csv, false⟩ [] 0 rfl rfl).1

/-! ## Proof layer: record mode -/

/-- Invariant of the record loop: the stored events are always the first
`max_events` of the consumed events. -/
theorem main_loop_record_take (cfg : MainCfg) (hrec : cfg.record_mode = true) :
    ∀ (src : List TimedItem) (st : MainSt) (clock : ℚ),
    st.events = st.consumed.take cfg.max_events →
    (main_loop cfg st clock src).1.events
      = (main_loop cfg st clock src).1.consumed.take cfg.max_events := by
  intro src
  induction src with
  | nil =>
    intro st clock h
    rw [main_loop_nil]
    split
    · exact h
    · exact h
  | cons ti rest ih =>
    intro st clock h
    by_cases htime : cfg.record_seconds - clock ≤ 0
    · rw [main_loop_expired cfg st clock ti rest ⟨hrec, htime⟩]
      exact h
    · rw [main_loop_rec_cons cfg hrec st clock ti rest htime]
      by_cases hdel : ti.delay ≤ cfg.record_seconds - clock
      · rw [if_pos hdel]
        cases hit : deliver ti (clock + ti.delay) with
        | eof => exact h
        | timeout => exact h
        | enter => exact h
        | ev e =>
          dsimp only
          have hlentake := congrArg List.length h
          rw [List.length_take] at hlentake
          by_cases hcap : st.events.length < cfg.max_events
          · rw [if_pos hcap]
            apply ih
            show st.events ++ [e] = (st.consumed ++ [e]).take cfg.max_events
            have hclen : st.consumed.length < cfg.max_events := by omega
            have hc : st.events = st.consumed := by
              rw [h, List.take_of_length_le (by omega)]
            rw [hc, List.take_of_length_le (by
              simp only [List.length_append, List.length_cons, List.length_nil]
              omega)]
          · rw [if_neg hcap]
            apply ih
            show st.events = (st.consumed ++ [e]).take cfg.max_events
            have hclen : cfg.max_events ≤ st.consumed.length := by omega
            rw [h, List.take_append_eq_append_take,
              show cfg.max_events - st.consumed.length = 0 by omega]
            simp
      · rw [if_neg hdel]
        exact h

/-- The record loop's stop reason does not depend on the buffer capacity
or on the loop state - only on the configured duration and the timing of
the input. -/
theorem main_loop_stop_capacity (cfg cfg2 : MainCfg) (hrec : cfg.record_mode = true)
    (hrec2 : cfg2.record_mode = true) (hsec : cfg2.record_seconds = cfg.record_seconds) :
    ∀ (src : List TimedItem) (st st2 : MainSt) (clock : ℚ),
    (main_loop cfg st clock src).2.1 = (main_loop cfg2 st2 clock src).2.1 := by
  intro src
  induction src with
  | nil =>
    intro st st2 clock
    rw [main_loop_nil, main_loop_nil, hrec, hrec2, hsec]
    split
    · rfl
    · rfl
  | cons ti rest ih =>
    intro st st2 clock
    by_cases htime : cfg.record_seconds - clock ≤ 0
    · rw [main_loop_expired cfg st clock ti rest ⟨hrec, htime⟩,
        main_loop_expired cfg2 st2 clock ti rest ⟨hrec2, by rw [hsec]; exact htime⟩]
    · rw [main_loop_rec_cons cfg hrec st clock ti rest htime,
        main_loop_rec_cons cfg2 hrec2 st2 clock ti rest (by rw [hsec]; exact htime), hsec]
      by_cases hdel : ti.delay ≤ cfg.record_seconds - clock
      · rw [if_pos hdel, if_pos hdel]
        cases hit : deliver ti (clock + ti.delay) with
        | eof => rfl
        | timeout => rfl
        | enter => rfl
        | ev e => exact ih _ _ (clock + ti.delay)
      · rw [if_neg hdel, if_neg hdel]

/-- The capacity computed at main.c lines 569-572 as a `min`. -/
theorem record_capacity_eq (d : ℚ) :
    record_capacity d = min ((⌊d * 1000⌋).toNat + 1024) MAX_EVENTS := by
  unfold record_capacity
  dsimp only
  split <;> omega

/-! ## Claim C8: the record-mode hard cap -/

/-- C8: in record mode with the capacity derived from the configured
duration (`floor(duration * 1000) + 1024`, capped at
`MAX_EVENTS = 65536`): the stored events are exactly the first
`max_events` consumed events (later arrivals are dropped, earlier ones
retained in arrival order - a hard cap, not a ring buffer), the buffer
never exceeds the capacity, and the loop's stop reason is entirely
independent of the capacity (the loop keeps consuming until the time
expires, Enter, or termination, even when the buffer is full). -/
theorem mouse_C8 (cfg : MainCfg) (src : List TimedItem)
    (hrec : cfg.record_mode = true)
    (hcap : cfg.max_events = record_capacity cfg.record_seconds) :
    ((main_loop cfg init_state 0 src).1.events
        = (main_loop cfg init_state 0 src).1.consumed.take cfg.max_events)
    ∧ (main_loop cfg init_state 0 src).1.events.length ≤ cfg.max_events
    ∧ cfg.max_events = min ((⌊cfg.record_seconds * 1000⌋).toNat + 1024) MAX_EVENTS
    ∧ MAX_EVENTS = 65536
    ∧ (∀ M : Nat, (main_loop cfg init_state 0 src).2.1
        = (main_loop { cfg with max_events := M } init_state 0 src).2.1) := by
  refine ⟨main_loop_record_take cfg hrec src init_state 0 (by simp [init_state]), ?_,
    by rw [hcap, record_capacity_eq], rfl, ?_⟩
  · rw [main_loop_record_take cfg hrec src init_state 0 (by simp [init_state])]
    rw [List.length_take]
    omega
  · intro M
    exact main_loop_stop_capacity cfg { cfg with max_events := M } hrec hrec rfl
      src init_state init_state 0

/-- Witness for C8 at a concrete configuration (5 seconds, capacity
6024, empty source). -/
theorem mouse_C8_witness :
    (main_loop ⟨false, 0, true, 5, record_capacity 5, .csv, false⟩ init_state 0 []).1.events
      = (main_loop ⟨false, 0, true, 5, record_capacity 5, .csv, false⟩
          init_state 0 []).1.consumed.take
          (MainCfg.max_events ⟨false, 0, true, 5, record_capacity 5, .csv, false⟩) :=
  (mouse_C8 ⟨false, 0, true, 5, record_capacity 5, .csv, false⟩ [] rfl (by congr 1)).1

/-! ## Claim C9: mark rendering (code bug in record mode) -/

/-- C9 evaluated at the failing input: with the mark option enabled and
a Press event consumed, record mode (`-r 5 -m`) renders NO mark - the
`continue` at main.c line 613 runs before the `draw_mark` call at
line 621, so the record branch never draws - while the very same event
in single-capture mode does render its mark at the press position.
This contradicts the program's own help text (main.c line 443: `-m,
--mark  draw a dot at click position (works in any mode)`) and the spec
sentence that mark rendering is a per-event side effect common to all
modes. -/
theorem mouse_C9_bug :
    ((main_loop ⟨false, 0, true, 5, 6024, .csv, true⟩ init_state 0
        [⟨1, .ev 0 5 6 .press⟩]).1.marks = [])
    ∧ ((main_loop ⟨false, 0, true, 5, 6024, .csv, true⟩ init_state 0
        [⟨1, .ev 0 5 6 .press⟩]).1.consumed = [⟨5, 6, 0, .press, 1⟩])
    ∧ ((main_loop ⟨false, 0, false, 0, 0, .csv, true⟩ init_state 0
        [⟨1, .ev 0 5 6 .press⟩]).1.marks = [(5, 6)]) := by
  have hrun : main_loop ⟨false, 0, true, 5, 6024, .csv, true⟩ init_state 0
      [⟨1, .ev 0 5 6 .press⟩]
      = (({ init_state with
            consumed := [⟨5, 6, 0, .press, 0 + 1⟩],
            events := [⟨5, 6, 0, .press, 0 + 1⟩] } : MainSt), .terminated, []) := by
    rw [main_loop_rec_cons ⟨false, 0, true, 5, 6024, .csv, true⟩ rfl init_state 0
      ⟨1, .ev 0 5 6 .press⟩ [] (by norm_num)]
    rw [if_pos (by norm_num)]
    dsimp only [deliver]
    rw [if_pos (by decide)]
    rw [main_loop_nil, if_neg (by norm_num)]
    simp [init_state]
  have hrun2 : main_loop ⟨false, 0, false, 0, 0, .csv, true⟩ init_state 0
      [⟨1, .ev 0 5 6 .press⟩]
      = (main_step ⟨false, 0, false, 0, 0, .csv, true⟩
          ({ init_state with consumed := [⟨5, 6, 0, .press, 0 + 1⟩] } : MainSt)
          ⟨5, 6, 0, .press, 0 + 1⟩, .limitReached, []) := by
    rw [main_loop_nonrec_cons ⟨false, 0, false, 0, 0, .csv, true⟩ rfl init_state 0
      ⟨1, .ev 0 5 6 .press⟩ []]
    dsimp only [deliver]
    rw [if_pos ⟨rfl, rfl, by decide⟩]
    rfl
  refine ⟨?_, ?_, ?_⟩
  · rw [hrun]
    simp [init_state]
  · rw [hrun]
    norm_num [init_state]
  · rw [hrun2]
    rw [(main_step_fields _ _ _).2.2.2.2]
    rw [if_pos ⟨rfl, rfl⟩]
    rfl

/-! ## Proof layer: the JSON formatters -/

/-- `type_str` names exactly the press kind `"press"`. -/
theorem type_str_press (t : EvType) : type_str t = "press" ↔ t = .press := by
  cases t <;> simp [type_str]

/-- The press-counting fold of `print_json_history` counts the
`"press"`-typed entries of the produced `events` array. -/
theorem history_fold_count (outs : List (event_t × ℚ)) : ∀ a : Nat,
    outs.foldl (fun k o => if o.1.type = .press then k + 1 else k) a
      = a + (((print_json_history outs "" "" 0).events).filter
          (fun en => en.type = "press")).length := by
  induction outs with
  | nil => intro a; simp [print_json_history]
  | cons o l ih =>
    intro a
    simp only [print_json_history, List.map_cons, List.foldl_cons] at ih ⊢
    by_cases h : o.1.type = .press
    · rw [if_pos h, List.filter_cons_of_pos (by simp [h, type_str]), ih]
      simp only [List.length_cons]
      omega
    · rw [if_neg h, List.filter_cons_of_neg (by
        simp only [decide_eq_true_eq]
        exact fun hc => h ((type_str_press o.1.type).mp hc)), ih]

/-- The press-counting fold of `print_json_from_events` counts the
`"press"`-typed entries of the `events_entries` array, whatever the
previous-timestamp seed. -/
theorem from_events_fold_count (events : List event_t) : ∀ (a : Nat) (prev : Option ℚ),
    events.foldl (fun k e => if e.type = .press then k + 1 else k) a
      = a + ((events_entries prev events).filter (fun en => en.type = "press")).length := by
  induction events with
  | nil => intro a prev; simp [events_entries]
  | cons e l ih =>
    intro a prev
    simp only [events_entries, List.foldl_cons]
    by_cases h : e.type = .press
    · rw [if_pos h, List.filter_cons_of_pos (by simp [h, type_str]), ih (a + 1) (some e.t)]
      simp only [List.length_cons]
      omega
    · rw [if_neg h, List.filter_cons_of_neg (by
        simp only [decide_eq_true_eq]
        exact fun hc => h ((type_str_press e.type).mp hc)), ih a (some e.t)]

/-! ## Claim C7: the outputs field counts only press entries -/

/-- C7: in the batched JSON document - the record shape shared by the
compact and the pretty rendering, which differ only in the whitespace
printed around the very same field values - the top-level `outputs`
field equals the number of `"press"`-typed entries in the `events`
array, for both `print_json_history` (stream/click sessions) and
`print_json_from_events` (record sessions), independent of how many
motion or release entries are present. -/
theorem mouse_C7 (outs : List (event_t × ℚ)) (events : List event_t)
    (mode started_at : String) (duration : ℚ) :
    ((print_json_history outs mode started_at duration).outputs
      = ((print_json_history outs mode started_at duration).events.filter
          (fun en => en.type = "press")).length)
    ∧ ((print_json_from_events events mode started_at duration).outputs
      = ((print_json_from_events events mode started_at duration).events.filter
          (fun en => en.type = "press")).length) := by
  constructor
  · show outs.foldl (fun k o => if o.1.type = .press then k + 1 else k) 0 = _
    rw [history_fold_count outs 0]
    simp [print_json_history]
  · show events.foldl (fun k e => if e.type = .press then k + 1 else k) 0 = _
    rw [from_events_fold_count events 0 none]
    simp [print_json_from_events]

/-! ## Claim C10: the record-session duration -/

/-- C10: the `duration` field of the record-mode JSON output is the
monotonic-timestamp difference between the last and the first captured
event - 0 when fewer than two events were captured - and not the
configured recording duration.  Part 1: the emitted duration equals that
difference for every input.  Part 2: concretely, two presses arriving
`d1` and then `d2` seconds apart within the recording window give
duration `d2` - whatever `record_seconds` is.  Part 3: an empty capture
gives duration 0. -/
theorem mouse_C10 (cfg : MainCfg) (sa : String) (src : List TimedItem)
    (hrec : cfg.record_mode = true) (hcap : 2 ≤ cfg.max_events)
    (hpos : 0 < cfg.record_seconds) :
    ((record_session cfg sa src).duration
        = (if 1 < (main_loop cfg init_state 0 src).1.events.length then
            ((main_loop cfg init_state 0 src).1.events.getLastD default).t
              - ((main_loop cfg init_state 0 src).1.events.headD default).t
          else 0))
    ∧ (∀ d1 d2 : ℚ, 0 ≤ d1 → 0 < d2 → d1 + d2 ≤ cfg.record_seconds →
        (record_session cfg sa [⟨d1, .ev 1 2 3 .press⟩, ⟨d2, .ev 1 2 3 .press⟩]).duration = d2)
    ∧ (record_session cfg sa []).duration = 0 := by
  refine ⟨rfl, ?_, ?_⟩
  · intro d1 d2 h1 h2 h3
    have hrunev : (main_loop cfg init_state 0
        [⟨d1, .ev 1 2 3 .press⟩, ⟨d2, .ev 1 2 3 .press⟩]).1.events
        = [⟨2, 3, 1, .press, 0 + d1⟩, ⟨2, 3, 1, .press, 0 + d1 + d2⟩] := by
      rw [main_loop_rec_cons cfg hrec init_state 0 _ _ (by
        intro hc; rw [sub_zero] at hc; linarith)]
      rw [if_pos (by rw [sub_zero]; linarith)]
      dsimp only [deliver]
      rw [if_pos (by
        show (0 : Nat) < cfg.max_events
        omega)]
      rw [main_loop_rec_cons cfg hrec _ _ _ _ (by
        intro hc; linarith)]
      rw [if_pos (by linarith)]
      dsimp only [deliver]
      rw [if_pos (by
        show (1 : Nat) < cfg.max_events
        omega)]
      rw [main_loop_nil]
      split <;> simp [init_state]
    simp only [record_session]
    rw [hrunev]
    show (if (1 : Nat) < 2 then (0 + d1 + d2) - (0 + d1) else 0) = d2
    rw [if_pos (by norm_num)]
    ring
  · simp only [record_session]
    rw [main_loop_nil]
    split <;> simp [init_state, print_json_from_events]

/-- Witness for C10 at a concrete configuration (5 seconds, capacity
6024, empty capture). -/
theorem mouse_C10_witness :
    (record_session ⟨false, 0, true, 5, 6024, .json, false⟩ "t" []).duration = 0 :=
  (mouse_C10 ⟨false, 0, true, 5, 6024, .json, false⟩ "t" [] rfl (by norm_num)
    (by norm_num)).2.2

end MouseTool
